import Mathlib

/-!
# Verification of the rust-lua lexer (`src/parser/token.rs`)

Shallow embedding of the logos-generated lexer defined by the `TokenEnum`
declaration in `src/parser/token.rs`, together with the driver loop
`TokenEnum::try_lexer`.  The source text is modelled as a `List Char`
(all inputs of interest are ASCII, so char offsets coincide with the byte
offsets used by the Rust code); spans are half-open offset pairs.

The lexer is maximal-munch: at each position every rule's longest match
length is computed, the longest wins, and at equal length an exact-text
`#[token]` rule wins over a `#[regex]` rule (logos priorities: a token
pattern has priority `2 * len`, the regex patterns of this enum have
priority 2, and no two regex rules of this enum can match the same
length at the same position).
-/

namespace RustLua

/-- Mirrors `struct TokenExtras` with its `Default` impl:
`line_breaks = 1, line_start = 0, before_token_is_separate = true,
before_token_start = 0` (the `file_path` field only feeds diagnostics
text and is omitted). -/
structure TokenExtras where
  line_breaks : Nat
  line_start : Nat
  before_token_is_separate : Bool
  before_token_start : Nat
deriving DecidableEq, Repr

instance : Inhabited TokenExtras :=
  ⟨{ line_breaks := 1, line_start := 0,
     before_token_is_separate := true, before_token_start := 0 }⟩

/-- Mirrors `struct Token<T> { line: usize, span: Span, v: T }`. -/
structure Token (α : Type) where
  line : Nat
  span : Nat × Nat
  v : α
deriving DecidableEq, Repr

/-- Payload type of the `Bool` variant (a plain alias; the constructor
name `TokenEnum.Bool` would otherwise shadow the type inside the
declaration). -/
abbrev BoolVal := Bool

/-- Mirrors `enum TokenEnum`.  `Skip` is a unit variant in the source
(`#[regex(r"[ \t]+")] Skip`), so logos produces it as an ordinary token.
`Line`'s declared payload is `Token<String>` but its callback returns the
incremented line counter; we carry that counter.  `Float`'s `f64` payload
is carried as the raw matched text (no claim inspects a float value).
String payloads are carried as `List Char`. -/
inductive TokenEnum where
  | Skip : TokenEnum
  | Line : Token Nat → TokenEnum
  | Comment : Token (List Char) → TokenEnum
  | Equal : Token Unit → TokenEnum
  | Plus : Token Unit → TokenEnum
  | Sub : Token Unit → TokenEnum
  | Mul : Token Unit → TokenEnum
  | Div : Token Unit → TokenEnum
  | DivToInt : Token Unit → TokenEnum
  | Semicolon : Token Unit → TokenEnum
  | Comma : Token Unit → TokenEnum
  | DoubleDot : Token Unit → TokenEnum
  | Dot : Token Unit → TokenEnum
  | Gt : Token Unit → TokenEnum
  | Lt : Token Unit → TokenEnum
  | ParenthesesLeft : Token Unit → TokenEnum
  | ParenthesesRight : Token Unit → TokenEnum
  | Function : Token Unit → TokenEnum
  | End : Token Unit → TokenEnum
  | Local : Token Unit → TokenEnum
  | Break : Token Unit → TokenEnum
  | Do : Token Unit → TokenEnum
  | While : Token Unit → TokenEnum
  | If : Token Unit → TokenEnum
  | Else : Token Unit → TokenEnum
  | Elseif : Token Unit → TokenEnum
  | Then : Token Unit → TokenEnum
  | Repeat : Token Unit → TokenEnum
  | Until : Token Unit → TokenEnum
  | For : Token Unit → TokenEnum
  | Goto : Token Unit → TokenEnum
  | And : Token Unit → TokenEnum
  | Or : Token Unit → TokenEnum
  | Name : Token (List Char) → TokenEnum
  | Int : Token Nat → TokenEnum
  | Float : Token (List Char) → TokenEnum
  | Bool : Token BoolVal → TokenEnum
  | QuotedString : Token (List Char) → TokenEnum
deriving DecidableEq, Repr

instance {ε α : Type} [DecidableEq ε] [DecidableEq α] :
    DecidableEq (Except ε α) := fun a b =>
  match a, b with
  | .ok x, .ok y =>
    match decEq x y with
    | isTrue h => isTrue (by rw [h])
    | isFalse h => isFalse (fun he => h (Except.ok.inj he))
  | .ok _, .error _ => isFalse (fun he => Except.noConfusion he)
  | .error _, .ok _ => isFalse (fun he => Except.noConfusion he)
  | .error x, .error y =>
    match decEq x y with
    | isTrue h => isTrue (by rw [h])
    | isFalse h => isFalse (fun he => h (Except.error.inj he))

/-- Mirrors `TokenEnum::is_separate`: the listed variants (note: `Dot` is
absent from the source's match arm) return `true`, everything else
`false`. -/
def TokenEnum.is_separate : TokenEnum → BoolVal
  | .Skip | .Line _ | .Comment _ | .Equal _ | .Plus _ | .Semicolon _
  | .Comma _ | .DoubleDot _ | .ParenthesesLeft _ | .Gt _ | .Lt _
  | .Sub _ | .Mul _ | .Div _ | .DivToInt _ | .QuotedString _
  | .ParenthesesRight _ => true
  | _ => false

/-! ## Rule matching

One match-length function per lexer rule, each computing the length of the
longest prefix of the input the rule's pattern can match (`0` = no match). -/

/-- Identifies one pattern of the `TokenEnum` declaration.  Exact-text
`#[token]` patterns and `#[regex]` patterns are listed separately because
logos gives them different priorities; `Bool` and `QuotedString` each have
two patterns. -/
inductive RuleId where
  | rEqual | rPlus | rSub | rMul | rDiv | rDivToInt | rSemicolon | rComma
  | rDoubleDot | rDot | rGt | rLt | rParenL | rParenR
  | rFunction | rEnd | rLocal | rBreak | rDo | rWhile | rIf | rElse
  | rElseif | rThen | rRepeat | rUntil | rFor | rGoto | rAnd | rOr
  | rTrue | rFalse
  | rSkip | rLine | rComment | rName | rInt | rFloat
  | rQuotedD | rQuotedS
deriving DecidableEq, Repr

/-- The form-feed character `\f` (U+000C). -/
def formFeed : Char := Char.ofNat 12

/-- Is `c` a line-terminator character of the `Line` regex's single-char
class `[\n\f\r]`? -/
def isLineTermChar (c : Char) : Bool :=
  c = '\n' || c = formFeed || c = '\r'

/-- Length of the longest prefix of `s` whose chars all satisfy `p`. -/
def takeWhileLen (p : Char → Bool) (s : List Char) : Nat :=
  (s.takeWhile p).length

/-- Length matched by the `Skip` rule `[ \t]+`. -/
def skipLen (s : List Char) : Nat :=
  takeWhileLen (fun c => c = ' ' || c = '\t') s

/-- Length matched by the `Line` rule `(\r\n)|[\n\f\r]` (longest
alternative: `\r\n` counts as a single two-char terminator). -/
def lineLen : List Char → Nat
  | [] => 0
  | c :: rest =>
    if c = '\r' then
      match rest with
      | c2 :: _ => if c2 = '\n' then 2 else 1
      | [] => 1
    else if c = '\n' || c = formFeed then 1 else 0

/-- Length matched by the `Comment` rule `--[^\n\f\r]*`. -/
def commentLen : List Char → Nat
  | c :: c2 :: rest =>
    if c = '-' && c2 = '-' then 2 + takeWhileLen (fun x => !isLineTermChar x) rest
    else 0
  | _ => 0

/-- First char of the `Name` regex `[_a-zA-Z][_0-9a-zA-Z]*`. -/
def isNameStart (c : Char) : Bool :=
  c = '_' || (('a' ≤ c && c ≤ 'z') || ('A' ≤ c && c ≤ 'Z'))

/-- Continuation char class `[_0-9a-zA-Z]` of the `Name` regex. -/
def isNameCont (c : Char) : Bool :=
  isNameStart c || ('0' ≤ c && c ≤ '9')

/-- Length matched by the `Name` rule. -/
def nameLen : List Char → Nat
  | [] => 0
  | c :: rest => if isNameStart c then 1 + takeWhileLen isNameCont rest else 0

/-- Decimal digit class `[0-9]`. -/
def isDecDigit (c : Char) : Bool := '0' ≤ c && c ≤ '9'

/-- Length of the leading run of decimal digits. -/
def digitRun (s : List Char) : Nat := takeWhileLen isDecDigit s

/-- Length matched by the `Int` rule `(0x)?[0-9]+`.  Note the source
pattern admits only DECIMAL digits after the `0x` prefix. -/
def intLen (s : List Char) : Nat :=
  match s with
  | c :: c2 :: rest =>
    if c = '0' && c2 = 'x' then
      let r := digitRun rest
      if r > 0 then 2 + r else digitRun s
    else digitRun s
  | _ => digitRun s

/-- Length matched by the optional exponent part `[eE][+-]?[0-9]+`
(`0` when it does not match). -/
def expLen : List Char → Nat
  | c :: rest =>
    if c = 'e' || c = 'E' then
      match rest with
      | c2 :: rest2 =>
        if c2 = '+' || c2 = '-' then
          let r := digitRun rest2
          if r > 0 then 2 + r else 0
        else
          let r := digitRun rest
          if r > 0 then 1 + r else 0
      | [] => 0
    else 0
  | [] => 0

/-- Length matched by the `Float` alternative `[0-9]*\.[0-9]+([eE][+-]?[0-9]+)?`. -/
def floatAltA (s : List Char) : Nat :=
  let d1 := digitRun s
  match s.drop d1 with
  | c :: rest =>
    if c = '.' then
      let d2 := digitRun rest
      if d2 > 0 then d1 + 1 + d2 + expLen (rest.drop d2) else 0
    else 0
  | [] => 0

/-- Length matched by the `Float` alternative `[0-9]+\.[0-9]*([eE][+-]?[0-9]+)?`. -/
def floatAltB (s : List Char) : Nat :=
  let d1 := digitRun s
  if d1 = 0 then 0 else
  match s.drop d1 with
  | c :: rest =>
    if c = '.' then
      let d2 := digitRun rest
      d1 + 1 + d2 + expLen (rest.drop d2)
    else 0
  | [] => 0

/-- Length matched by the `Float` alternative `[0-9]+[eE][+-]?[0-9]+`. -/
def floatAltC (s : List Char) : Nat :=
  let d1 := digitRun s
  if d1 = 0 then 0 else
  let e := expLen (s.drop d1)
  if e > 0 then d1 + e else 0

/-- Length matched by the `Float` rule (the longest of its three
alternatives; `0` when none matches). -/
def floatLen (s : List Char) : Nat :=
  max (floatAltA s) (max (floatAltB s) (floatAltC s))

/-- Longest-match continuation of the quoted-string body regex
`([^qq\\]|\\.|qq)*q` for quote char `q`, on the text after the opening
quote.  Returns the number of chars consumed up to and including the
closing quote, `none` when no closing quote is reachable.  A doubled
quote `qq` continues the body (taken when it leads to a longer match,
which is always, matching the leftmost-longest DFA semantics); `\\.`
consumes the backslash and any following char except `\n`; the plain
class `[^q\\]` includes line breaks. -/
def qsInside (q : Char) : List Char → Option Nat
  | [] => none
  | [c] => if c = q then some 1 else none
  | c :: c2 :: rest =>
    if c = q then
      if c2 = q then
        match qsInside q rest with
        | some n => some (2 + n)
        | none => some 1
      else some 1
    else if c = '\\' then
      if c2 = '\n' then none else (qsInside q rest).map (2 + ·)
    else (qsInside q (c2 :: rest)).map (1 + ·)

/-- Length matched by a `QuotedString` rule with quote char `q`. -/
def quotedLen (q : Char) : List Char → Nat
  | c :: rest =>
    if c = q then
      match qsInside q rest with
      | some n => 1 + n
      | none => 0
    else 0
  | [] => 0

/-- The `#[token]` patterns of `TokenEnum`, in declaration order, paired
with their rules.  (`true` / `false` are the two token patterns of the
`Bool` variant.) -/
def tokenCandidates : List (List Char × RuleId) :=
  [("=".data, .rEqual), ("+".data, .rPlus), ("-".data, .rSub),
   ("*".data, .rMul), ("/".data, .rDiv), ("//".data, .rDivToInt),
   (";".data, .rSemicolon), (",".data, .rComma), ("..".data, .rDoubleDot),
   (".".data, .rDot), (">".data, .rGt), ("<".data, .rLt),
   ("(".data, .rParenL), (")".data, .rParenR),
   ("function".data, .rFunction), ("end".data, .rEnd),
   ("local".data, .rLocal), ("break".data, .rBreak), ("do".data, .rDo),
   ("while".data, .rWhile), ("if".data, .rIf), ("else".data, .rElse),
   ("elseif".data, .rElseif), ("then".data, .rThen),
   ("repeat".data, .rRepeat), ("until".data, .rUntil), ("for".data, .rFor),
   ("goto".data, .rGoto), ("and".data, .rAnd), ("or".data, .rOr),
   ("true".data, .rTrue), ("false".data, .rFalse)]

/-- Longest `#[token]` pattern matching a prefix of `s` (none of the
patterns is empty, so a returned length is always positive; two distinct
patterns of equal length cannot both be prefixes of `s`, so the
tie-break branch is immaterial). -/
def bestTokAux : Option (RuleId × Nat) → List (List Char × RuleId) → List Char →
    Option (RuleId × Nat)
  | acc, [], _ => acc
  | acc, (pat, r) :: rest, s =>
    let acc2 :=
      if pat.isPrefixOf s then
        match acc with
        | none => some (r, pat.length)
        | some (r0, n0) => if pat.length > n0 then some (r, pat.length) else some (r0, n0)
      else acc
    bestTokAux acc2 rest s

/-- Longest-matching token rule at the start of `s`. -/
def bestTok (s : List Char) : Option (RuleId × Nat) :=
  bestTokAux none tokenCandidates s

/-- Match length of a `#[regex]` rule (`0` for every `#[token]` rule). -/
def regexLen : RuleId → List Char → Nat
  | .rSkip, s => skipLen s
  | .rLine, s => lineLen s
  | .rComment, s => commentLen s
  | .rName, s => nameLen s
  | .rInt, s => intLen s
  | .rFloat, s => floatLen s
  | .rQuotedD, s => quotedLen '"' s
  | .rQuotedS, s => quotedLen '\'' s
  | _, _ => 0

/-- The `#[regex]` rules in declaration order. -/
def regexRules : List RuleId :=
  [.rSkip, .rLine, .rComment, .rName, .rInt, .rFloat, .rQuotedD, .rQuotedS]

/-- Longest-matching regex rule (earliest-declared wins a tie; with this
rule set two regex rules never tie, see the head-character analysis in
the lemmas below). -/
def bestRegexAux : Option (RuleId × Nat) → List RuleId → List Char →
    Option (RuleId × Nat)
  | acc, [], _ => acc
  | acc, r :: rest, s =>
    let n := regexLen r s
    let acc2 :=
      if n = 0 then acc
      else
        match acc with
        | none => some (r, n)
        | some (r0, n0) => if n > n0 then some (r, n) else some (r0, n0)
    bestRegexAux acc2 rest s

/-- Longest-matching regex rule at the start of `s`. -/
def bestRegex (s : List Char) : Option (RuleId × Nat) :=
  bestRegexAux none regexRules s

/-- Maximal-munch rule selection: longest match wins; at equal length an
exact-text token rule (logos priority `2 * len`) beats a regex rule
(priority 2 for every regex of this enum). -/
def nextMatch (s : List Char) : Option (RuleId × Nat) :=
  match bestTok s, bestRegex s with
  | none, none => none
  | some tn, none => some tn
  | none, some rn => some rn
  | some (rt, nt), some (rr, nr) => if nt ≥ nr then some (rt, nt) else some (rr, nr)

/-! ## Callbacks and the scan loop -/

/-- Reason tag of a diagnostic printed through
`TokenExtras::println_err`. -/
inductive ErrReason where
  | decodeFail
  | unknownToken
deriving DecidableEq, Repr

/-- One diagnostic line printed through `TokenExtras::println_err`:
offending span, the line counter at print time, and the reason. -/
structure LexError where
  span : Nat × Nat
  line : Nat
  reason : ErrReason
deriving DecidableEq, Repr

/-- Models `.replace("\\", "")`: every backslash removed. -/
def removeBackslash (s : List Char) : List Char :=
  s.filter (fun c => !(c = '\\'))

/-- Mirrors `string_lexer`: payload is the matched slice without its last
char (`x[..x.len() - 1]`) and with every backslash removed; the span is
the full raw match. -/
def string_lexer (slice : List Char) (span : Nat × Nat) (lineNo : Nat) :
    Token (List Char) :=
  ⟨lineNo, span, removeBackslash slice.dropLast⟩

/-- Value of a digit string under `radix` (the `Int` regex only ever
produces decimal digit chars, which are valid digits for both radix 10
and radix 16, so `u64::from_str_radix`'s only failure mode here is
overflow). -/
def natOfDigits (radix : Nat) (digits : List Char) : Nat :=
  digits.foldl (fun acc c => acc * radix + (c.toNat - '0'.toNat)) 0

/-- Mirrors `u64_lexer`: strip a leading `0x` and use radix 16, else
radix 10; `None` (the logos error path) when the value does not fit in a
`u64`. -/
def u64_lexer (slice : List Char) (span : Nat × Nat) (lineNo : Nat) :
    Option (Token Nat) :=
  let p := if slice.take 2 = ['0', 'x'] then (16, slice.drop 2) else (10, slice)
  if p.2 = [] then none
  else
    let v := natOfDigits p.1 p.2
    if v < 2 ^ 64 then some ⟨lineNo, span, v⟩ else none

/-- Mirrors the `line` callback: increment `line_breaks` and record the
START offset of the terminator match (`lex.span().start`) as
`line_start`; the callback's return value is the incremented counter. -/
def line (span : Nat × Nat) (ex : TokenExtras) : Nat × TokenExtras :=
  let ex2 := { ex with line_breaks := ex.line_breaks + 1, line_start := span.1 }
  (ex2.line_breaks, ex2)

/-- Mirrors the `empty` callback: a unit token at the match's span and
the current line counter. -/
def empty (span : Nat × Nat) (lineNo : Nat) : Token Unit :=
  ⟨lineNo, span, ()⟩

/-- Mirrors `on_token` (run by `try_lexer` on every `Ok` token): report
an "unknown token" diagnostic spanning from the previous token's start
to the current token's end when neither is a separator, then record the
current token's separator status and start offset. -/
def on_token (span : Nat × Nat) (t : TokenEnum) (ex : TokenExtras) :
    TokenExtras × List LexError :=
  let errs :=
    if !t.is_separate && !ex.before_token_is_separate then
      [⟨(ex.before_token_start, span.2), ex.line_breaks, ErrReason.unknownToken⟩]
    else []
  ({ ex with before_token_is_separate := t.is_separate,
             before_token_start := span.1 }, errs)

/-- The `Token<()>` variant constructor for each `#[token]` punctuation
or keyword rule (`none` for the regex rules and the two `Bool`
patterns). -/
def unitCtor : RuleId → Option (Token Unit → TokenEnum)
  | .rEqual => some .Equal
  | .rPlus => some .Plus
  | .rSub => some .Sub
  | .rMul => some .Mul
  | .rDiv => some .Div
  | .rDivToInt => some .DivToInt
  | .rSemicolon => some .Semicolon
  | .rComma => some .Comma
  | .rDoubleDot => some .DoubleDot
  | .rDot => some .Dot
  | .rGt => some .Gt
  | .rLt => some .Lt
  | .rParenL => some .ParenthesesLeft
  | .rParenR => some .ParenthesesRight
  | .rFunction => some .Function
  | .rEnd => some .End
  | .rLocal => some .Local
  | .rBreak => some .Break
  | .rDo => some .Do
  | .rWhile => some .While
  | .rIf => some .If
  | .rElse => some .Else
  | .rElseif => some .Elseif
  | .rThen => some .Then
  | .rRepeat => some .Repeat
  | .rUntil => some .Until
  | .rFor => some .For
  | .rGoto => some .Goto
  | .rAnd => some .And
  | .rOr => some .Or
  | _ => none

/-- One `lex.next()` step at `pos`: pick the maximal-munch rule, run its
callback, and return (result, span of the match, new position, new
extras, diagnostics printed during the step).  An unmatched character
yields the logos error value and advances one char.  A callback
returning `None` (`u64_lexer` on overflow) also yields the error value,
after printing the decode diagnostic (`print_err`). -/
def scanStep (src : List Char) (pos : Nat) (ex : TokenExtras) :
    Except Unit TokenEnum × (Nat × Nat) × Nat × TokenExtras × List LexError :=
  match nextMatch (src.drop pos) with
  | none => (.error (), (pos, pos + 1), pos + 1, ex, [])
  | some (r, len) =>
    let slice := (src.drop pos).take len
    let span := (pos, pos + len)
    let lineNo := ex.line_breaks
    match unitCtor r with
    | some mk => (.ok (mk (empty span lineNo)), span, pos + len, ex, [])
    | none =>
      match r with
      | .rSkip => (.ok .Skip, span, pos + len, ex, [])
      | .rLine =>
        let p := line span ex
        (.ok (.Line ⟨lineNo, span, p.1⟩), span, pos + len, p.2, [])
      | .rComment =>
        (.ok (.Comment (string_lexer slice span lineNo)), span, pos + len, ex, [])
      | .rName => (.ok (.Name ⟨lineNo, span, slice⟩), span, pos + len, ex, [])
      | .rInt =>
        match u64_lexer slice span lineNo with
        | some t => (.ok (.Int t), span, pos + len, ex, [])
        | none =>
          (.error (), span, pos + len, ex, [⟨span, lineNo, ErrReason.decodeFail⟩])
      | .rFloat => (.ok (.Float ⟨lineNo, span, slice⟩), span, pos + len, ex, [])
      | .rTrue => (.ok (.Bool ⟨lineNo, span, true⟩), span, pos + len, ex, [])
      | .rFalse => (.ok (.Bool ⟨lineNo, span, false⟩), span, pos + len, ex, [])
      | .rQuotedD =>
        (.ok (.QuotedString (string_lexer slice span lineNo)), span, pos + len, ex, [])
      | .rQuotedS =>
        (.ok (.QuotedString (string_lexer slice span lineNo)), span, pos + len, ex, [])
      | _ => (.error (), span, pos + len, ex, [])

/-- The `while let Some(token) = lex.next()` loop of `try_lexer`:
collect every result, run `on_token` on each `Ok` token (errors are
only printed), and accumulate all diagnostics in print order.  Returns
(results, diagnostics, final extras, final position).  `fuel` bounds the
number of iterations; every step consumes at least one char, so
`src.length + 1` units of fuel always run the loop to exhaustion. -/
def runLexerAux (src : List Char) : Nat → Nat → TokenExtras →
    List (Except Unit TokenEnum) × List LexError × TokenExtras × Nat
  | 0, pos, ex => ([], [], ex, pos)
  | fuel + 1, pos, ex =>
    if pos < src.length then
      let step := scanStep src pos ex
      let res := step.1
      let span := step.2.1
      let pos2 := step.2.2.1
      let ex2 := step.2.2.2.1
      let derrs := step.2.2.2.2
      let next :=
        match res with
        | .ok t => on_token span t ex2
        | .error _ => (ex2, [])
      let rest := runLexerAux src fuel pos2 next.1
      (res :: rest.1, derrs ++ next.2 ++ rest.2.1, rest.2.2.1, rest.2.2.2)
    else ([], [], ex, pos)

/-- Run the lexer-plus-driver over a whole buffer from a fresh state. -/
def runLexer (src : List Char) :
    List (Except Unit TokenEnum) × List LexError × TokenExtras × Nat :=
  runLexerAux src (src.length + 1) 0 default

/-- All results the iterator yields, in order. -/
def lexResults (src : List Char) : List (Except Unit TokenEnum) :=
  (runLexer src).1

/-- The successfully produced tokens (the `token_list` of `try_lexer`). -/
def okTokens (src : List Char) : List TokenEnum :=
  (lexResults src).filterMap fun r =>
    match r with
    | .ok t => some t
    | .error _ => none

/-- All diagnostics printed during the scan, in print order. -/
def errLog (src : List Char) : List LexError :=
  (runLexer src).2.1

/-- The scan state after the driver loop finishes. -/
def finalExtras (src : List Char) : TokenExtras :=
  (runLexer src).2.2.1

/-- The cursor position after the driver loop finishes. -/
def finalPos (src : List Char) : Nat :=
  (runLexer src).2.2.2

/-- Mirrors `try_lexer`'s return value `Ok(lex.count())`: the number of
items the ALREADY-EXHAUSTED iterator still yields — the loop above ran
`lex.next()` until `None`, and `count()` then counts from the final
state onward. -/
def try_lexer (src : List Char) : Nat :=
  (runLexerAux src (src.length + 1) (finalPos src) (finalExtras src)).1.length

/-- Slice of the source buffer denoted by a half-open span. -/
def sliceAt (src : List Char) (span : Nat × Nat) : List Char :=
  (src.drop span.1).take (span.2 - span.1)

/-- Separator classification as the amended claim C4 states it: only
identifiers, numbers, booleans, keywords — and `Dot` — are
non-separators; every other kind is a separator. -/
def amendedSeparatorSpec : TokenEnum → Bool
  | .Name _ | .Int _ | .Float _ | .Bool _ | .Dot _
  | .Function _ | .End _ | .Local _ | .Break _ | .Do _ | .While _
  | .If _ | .Else _ | .Elseif _ | .Then _ | .Repeat _ | .Until _
  | .For _ | .Goto _ | .And _ | .Or _ => false
  | _ => true

/-- The reserved keywords of the lexer (the 16 `#[token]` words that are
neither punctuation nor boolean literals). -/
def keywordStrings : List (List Char) :=
  ["function".data, "end".data, "local".data, "break".data, "do".data,
   "while".data, "if".data, "else".data, "elseif".data, "then".data,
   "repeat".data, "until".data, "for".data, "goto".data, "and".data,
   "or".data]

/-- An identifier run: a name-start char followed by name-continuation
chars only (the exact shape matched in full by the `Name` regex). -/
def isIdentRun : List Char → Bool
  | [] => false
  | c :: rest => isNameStart c && rest.all isNameCont

/-! ## Character-class and matcher lemmas -/

theorem nameStart_ne {c : Char} (h : isNameStart c = true) {d : Char}
    (hd : isNameStart d = false) : ¬ c = d := by
  intro he
  subst he
  simp [h] at hd

theorem nameStart_not_digit {c : Char} (h : isNameStart c = true) :
    isDecDigit c = false := by
  by_contra hx
  have hd : isDecDigit c = true := by
    cases hq : isDecDigit c
    · exact absurd hq hx
    · rfl
  simp only [isNameStart, Bool.or_eq_true, Bool.and_eq_true,
    decide_eq_true_eq] at h
  simp only [isDecDigit, Bool.and_eq_true, decide_eq_true_eq] at hd
  rcases h with h | ⟨h1, h2⟩ | ⟨h1, h2⟩
  · subst h
    exact absurd hd (by decide)
  · exact absurd (le_trans h1 hd.2) (by decide)
  · exact absurd (le_trans h1 hd.2) (by decide)

theorem skipLen_nameStart (c : Char) (rest : List Char)
    (hc : isNameStart c = true) : skipLen (c :: rest) = 0 := by
  have h1 : ¬ c = ' ' := nameStart_ne hc (by decide)
  have h2 : ¬ c = '\t' := nameStart_ne hc (by decide)
  simp [skipLen, takeWhileLen, List.takeWhile_cons, h1, h2]

theorem lineLen_nameStart (c : Char) (rest : List Char)
    (hc : isNameStart c = true) : lineLen (c :: rest) = 0 := by
  have h1 : ¬ c = '\r' := nameStart_ne hc (by decide)
  have h2 : ¬ c = '\n' := nameStart_ne hc (by decide)
  have h3 : ¬ c = formFeed := nameStart_ne hc (by decide)
  simp [lineLen, h1, h2, h3]

theorem commentLen_nameStart (c : Char) (rest : List Char)
    (hc : isNameStart c = true) : commentLen (c :: rest) = 0 := by
  have h1 : ¬ c = '-' := nameStart_ne hc (by decide)
  cases rest with
  | nil => rfl
  | cons c2 rest2 => simp [commentLen, h1]

theorem digitRun_nameStart (c : Char) (rest : List Char)
    (hc : isNameStart c = true) : digitRun (c :: rest) = 0 := by
  have hd : isDecDigit c = false := nameStart_not_digit hc
  simp [digitRun, takeWhileLen, List.takeWhile_cons, hd]

theorem intLen_nameStart (c : Char) (rest : List Char)
    (hc : isNameStart c = true) : intLen (c :: rest) = 0 := by
  have h0 : ¬ c = '0' := nameStart_ne hc (by decide)
  cases rest with
  | nil => simpa [intLen] using digitRun_nameStart c [] hc
  | cons c2 rest2 =>
    simpa [intLen, h0] using digitRun_nameStart c (c2 :: rest2) hc

theorem floatLen_nameStart (c : Char) (rest : List Char)
    (hc : isNameStart c = true) : floatLen (c :: rest) = 0 := by
  have hd : digitRun (c :: rest) = 0 := digitRun_nameStart c rest hc
  have hdot : ¬ c = '.' := nameStart_ne hc (by decide)
  simp [floatLen, floatAltA, floatAltB, floatAltC, hd, hdot]

theorem quotedLen_nameStart (c : Char) (rest : List Char) (q : Char)
    (hc : isNameStart c = true) (hq : isNameStart q = false) :
    quotedLen q (c :: rest) = 0 := by
  have h1 : ¬ c = q := nameStart_ne hc hq
  simp [quotedLen, h1]

theorem nameLen_identRun (c : Char) (rest : List Char)
    (hc : isNameStart c = true) (hr : ∀ x ∈ rest, isNameCont x = true) :
    nameLen (c :: rest) = (c :: rest).length := by
  simp [nameLen, hc, takeWhileLen, List.takeWhile_eq_self_iff.mpr hr,
    Nat.add_comm]

theorem bestRegex_identRun (c : Char) (rest : List Char)
    (hc : isNameStart c = true) (hr : ∀ x ∈ rest, isNameCont x = true) :
    bestRegex (c :: rest) = some (.rName, (c :: rest).length) := by
  have hn : nameLen (c :: rest) = rest.length + 1 := by
    simpa using nameLen_identRun c rest hc hr
  simp [bestRegex, regexRules, bestRegexAux, regexLen,
    skipLen_nameStart c rest hc, lineLen_nameStart c rest hc,
    commentLen_nameStart c rest hc, intLen_nameStart c rest hc,
    floatLen_nameStart c rest hc,
    quotedLen_nameStart c rest '"' hc (by decide),
    quotedLen_nameStart c rest '\'' hc (by decide), hn]

theorem bestTokAux_acc_le (cands : List (List Char × RuleId)) :
    ∀ (s : List Char) (r0 : RuleId) (n0 : Nat),
      ∃ r2 n2, bestTokAux (some (r0, n0)) cands s = some (r2, n2) ∧ n0 ≤ n2 := by
  induction cands with
  | nil => intro s r0 n0; exact ⟨r0, n0, rfl, Nat.le_refl _⟩
  | cons hd tl ih =>
    intro s r0 n0
    rcases hd with ⟨pat, r⟩
    by_cases hp : pat.isPrefixOf s = true
    · by_cases hgt : pat.length > n0
      · obtain ⟨r2, n2, heq, hle⟩ := ih s r pat.length
        exact ⟨r2, n2, by simpa [bestTokAux, hp, hgt] using heq,
          Nat.le_trans (Nat.le_of_lt hgt) hle⟩
      · obtain ⟨r2, n2, heq, hle⟩ := ih s r0 n0
        exact ⟨r2, n2, by simpa [bestTokAux, hp, hgt] using heq, hle⟩
    · obtain ⟨r2, n2, heq, hle⟩ := ih s r0 n0
      exact ⟨r2, n2, by simpa [bestTokAux, hp] using heq, hle⟩

theorem bestTokAux_ge (cands : List (List Char × RuleId)) :
    ∀ (s : List Char) (acc : Option (RuleId × Nat)) (p : List Char) (r : RuleId),
      (p, r) ∈ cands → p.isPrefixOf s = true →
      ∃ r2 n2, bestTokAux acc cands s = some (r2, n2) ∧ p.length ≤ n2 := by
  induction cands with
  | nil => intro s acc p r hmem; simp at hmem
  | cons hd tl ih =>
    intro s acc p r hmem hpre
    rcases hd with ⟨pat, rr⟩
    rcases List.mem_cons.mp hmem with heq | hmem'
    · injection heq with h1 h2
      subst h1
      subst h2
      cases acc with
      | none =>
        obtain ⟨r2, n2, heq2, hle⟩ := bestTokAux_acc_le tl s r p.length
        exact ⟨r2, n2, by simpa [bestTokAux, hpre] using heq2, hle⟩
      | some pr =>
        rcases pr with ⟨r0, n0⟩
        by_cases hgt : p.length > n0
        · obtain ⟨r2, n2, heq2, hle⟩ := bestTokAux_acc_le tl s r p.length
          exact ⟨r2, n2, by simpa [bestTokAux, hpre, hgt] using heq2, hle⟩
        · obtain ⟨r2, n2, heq2, hle⟩ := bestTokAux_acc_le tl s r0 n0
          exact ⟨r2, n2, by simpa [bestTokAux, hpre, hgt] using heq2,
            Nat.le_trans (Nat.le_of_not_lt hgt) hle⟩
    · have step := ih s
        (if pat.isPrefixOf s then
          match acc with
          | none => some (rr, pat.length)
          | some (r0, n0) =>
            if pat.length > n0 then some (rr, pat.length) else some (r0, n0)
         else acc) p r hmem' hpre
      simpa [bestTokAux] using step

theorem bestTokAux_sound (cands : List (List Char × RuleId)) :
    ∀ (s : List Char) (acc : Option (RuleId × Nat)) (r : RuleId) (n : Nat),
      bestTokAux acc cands s = some (r, n) →
      acc = some (r, n) ∨
      ∃ p, (p, r) ∈ cands ∧ p.isPrefixOf s = true ∧ p.length = n := by
  induction cands with
  | nil =>
    intro s acc r n h
    left
    simpa [bestTokAux] using h
  | cons hd tl ih =>
    intro s acc r n h
    rcases hd with ⟨pat, rr⟩
    by_cases hp : pat.isPrefixOf s = true
    · cases acc with
      | none =>
        have h2 : bestTokAux (some (rr, pat.length)) tl s = some (r, n) := by
          simpa [bestTokAux, hp] using h
        rcases ih s _ r n h2 with heq | ⟨p, hm, hpre, hlen⟩
        · injection heq with heq2
          injection heq2 with hr hn
          subst hr
          subst hn
          exact Or.inr ⟨pat, List.mem_cons_self _ _, hp, rfl⟩
        · exact Or.inr ⟨p, List.mem_cons_of_mem _ hm, hpre, hlen⟩
      | some pr =>
        rcases pr with ⟨r0, n0⟩
        by_cases hgt : pat.length > n0
        · have h2 : bestTokAux (some (rr, pat.length)) tl s = some (r, n) := by
            simpa [bestTokAux, hp, hgt] using h
          rcases ih s _ r n h2 with heq | ⟨p, hm, hpre, hlen⟩
          · injection heq with heq2
            injection heq2 with hr hn
            subst hr
            subst hn
            exact Or.inr ⟨pat, List.mem_cons_self _ _, hp, rfl⟩
          · exact Or.inr ⟨p, List.mem_cons_of_mem _ hm, hpre, hlen⟩
        · have h2 : bestTokAux (some (r0, n0)) tl s = some (r, n) := by
            simpa [bestTokAux, hp, hgt] using h
          rcases ih s _ r n h2 with heq | ⟨p, hm, hpre, hlen⟩
          · exact Or.inl heq
          · exact Or.inr ⟨p, List.mem_cons_of_mem _ hm, hpre, hlen⟩
    · have h2 : bestTokAux acc tl s = some (r, n) := by
        simpa [bestTokAux, hp] using h
      rcases ih s _ r n h2 with heq | ⟨p, hm, hpre, hlen⟩
      · exact Or.inl heq
      · exact Or.inr ⟨p, List.mem_cons_of_mem _ hm, hpre, hlen⟩

theorem keywordStrings_subset_candidates :
    ∀ p ∈ keywordStrings, p ∈ tokenCandidates.map Prod.fst := by decide

theorem keywordStrings_identRun :
    ∀ p ∈ keywordStrings, isIdentRun p = true := by decide

theorem candidate_identRun_strings :
    ∀ p ∈ tokenCandidates.map Prod.fst, isIdentRun p = true →
      p ∈ keywordStrings ∨ p = "true".data ∨ p = "false".data := by decide

theorem keyword_not_prefix_of_bool :
    ∀ p ∈ keywordStrings,
      p.isPrefixOf "true".data = false ∧ p.isPrefixOf "false".data = false := by
  decide

theorem keyword_candidate_unit :
    ∀ pr ∈ tokenCandidates, pr.1 ∈ keywordStrings →
      (unitCtor pr.2).isSome = true := by decide

/-- Maximal-munch selection on a full identifier run: if the run is
itself one of the exact-text patterns, that token rule wins the
whole-run tie (token priority); otherwise the `Name` regex wins with
the whole run. -/
theorem nextMatch_identRun (s : List Char) (h : isIdentRun s = true) :
    (s ∈ tokenCandidates.map Prod.fst →
      ∃ r, (s, r) ∈ tokenCandidates ∧ nextMatch s = some (r, s.length)) ∧
    (s ∉ tokenCandidates.map Prod.fst →
      nextMatch s = some (.rName, s.length)) := by
  rcases s with _ | ⟨c, rest⟩
  · simp [isIdentRun] at h
  · simp only [isIdentRun, Bool.and_eq_true, List.all_eq_true] at h
    have hbr := bestRegex_identRun c rest h.1 h.2
    constructor
    · intro hmem
      rcases List.mem_map.mp hmem with ⟨pr, hpr, hfst⟩
      have hpair : (c :: rest, pr.2) ∈ tokenCandidates := by
        have : pr = (c :: rest, pr.2) := by
          rcases pr with ⟨a, b⟩
          simp at hfst
          simp [hfst]
        exact this ▸ hpr
      have hpre : (c :: rest).isPrefixOf (c :: rest) = true :=
        List.isPrefixOf_iff_prefix.mpr (List.prefix_refl _)
      obtain ⟨r2, n2, hbt, hge⟩ :=
        bestTokAux_ge tokenCandidates (c :: rest) none (c :: rest) pr.2
          hpair hpre
      rcases bestTokAux_sound tokenCandidates (c :: rest) none r2 n2 hbt with
        heq | ⟨p, hm, hp2, hlen⟩
      · exact absurd heq (by simp)
      · have hle : n2 ≤ (c :: rest).length := by
          rw [← hlen]
          exact (List.isPrefixOf_iff_prefix.mp hp2).length_le
        have hn2 : n2 = (c :: rest).length := Nat.le_antisymm hle hge
        have hpeq : p = c :: rest :=
          (List.isPrefixOf_iff_prefix.mp hp2).eq_of_length (by rw [hlen, hn2])
        subst hpeq
        refine ⟨r2, hm, ?_⟩
        · simp only [nextMatch, bestTok, hbt, hbr, hn2]
          simp
    · intro hmem
      rcases hbt : bestTok (c :: rest) with _ | ⟨rt, nt⟩
      · simp only [nextMatch, hbt, hbr]
      · rcases bestTokAux_sound tokenCandidates (c :: rest) none rt nt hbt with
          heq | ⟨p, hm, hp2, hlen⟩
        · exact absurd heq (by simp)
        · have hlt : nt < (c :: rest).length := by
            rcases Nat.lt_or_ge nt (c :: rest).length with hlt | hge2
            · exact hlt
            · exfalso
              have hle : nt ≤ (c :: rest).length := by
                rw [← hlen]
                exact (List.isPrefixOf_iff_prefix.mp hp2).length_le
              have hn2 : nt = (c :: rest).length := Nat.le_antisymm hle hge2
              have hpeq : p = c :: rest :=
                (List.isPrefixOf_iff_prefix.mp hp2).eq_of_length
                  (by rw [hlen, hn2])
              subst hpeq
              exact hmem (List.mem_map.mpr ⟨(c :: rest, rt), hm, rfl⟩)
          simp only [nextMatch, hbt, hbr]
          rw [if_neg (Nat.not_le_of_lt hlt)]

/-- The scan loop does nothing once the cursor is at or past the end of
the buffer. -/
theorem runLexerAux_at_end (src : List Char) (fuel pos : Nat)
    (ex : TokenExtras) (h : ¬ pos < src.length) :
    runLexerAux src fuel pos ex = ([], [], ex, pos) := by
  cases fuel <;> simp [runLexerAux, h]

/-- A step whose winning rule is an exact-text punctuation or keyword
pattern produces the corresponding unit token via the `empty`
callback. -/
theorem scanStep_unit (s : List Char) (r : RuleId)
    (mk : Token Unit → TokenEnum) (ex : TokenExtras)
    (hnm : nextMatch s = some (r, s.length)) (hmk : unitCtor r = some mk) :
    scanStep s 0 ex =
      (.ok (mk (empty (0, s.length) ex.line_breaks)), (0, s.length),
       s.length, ex, []) := by
  simp [scanStep, hnm, hmk]

/-- A step won by the `Name` regex over the whole buffer produces a
`Name` token whose payload is the full buffer. -/
theorem scanStep_name (s : List Char) (ex : TokenExtras)
    (hnm : nextMatch s = some (.rName, s.length)) :
    scanStep s 0 ex =
      (.ok (.Name ⟨ex.line_breaks, (0, s.length), s⟩), (0, s.length),
       s.length, ex, []) := by
  simp [scanStep, hnm, unitCtor]

/-- If the very first step consumes the whole buffer and produces an
`Ok` token with no decode diagnostics, the scan yields exactly that one
result and no diagnostics at all (the first token can never trigger the
adjacency check because the initial state marks the predecessor as a
separator). -/
theorem runLexer_single_ok (s : List Char) (h0 : 0 < s.length)
    (t : TokenEnum)
    (hstep : scanStep s 0 default =
      (.ok t, (0, s.length), s.length, default, [])) :
    lexResults s = [.ok t] ∧ errLog s = [] := by
  have hend : ∀ ex2 : TokenExtras,
      runLexerAux s s.length s.length ex2 = ([], [], ex2, s.length) :=
    fun ex2 => runLexerAux_at_end s s.length s.length ex2 (Nat.lt_irrefl _)
  have hadj : (on_token (0, s.length) t default).2 = [] := by
    simp [on_token, default]
  constructor
  · simp [lexResults, runLexer, runLexerAux, h0, hstep, hend]
  · simp [errLog, runLexer, runLexerAux, h0, hstep, hend, hadj]

theorem identRun_append (a b : List Char) (ha : isIdentRun a = true)
    (hb : ∀ c ∈ b, isNameCont c = true) : isIdentRun (a ++ b) = true := by
  rcases a with _ | ⟨c, rest⟩
  · simp [isIdentRun] at ha
  · simp only [isIdentRun, Bool.and_eq_true, List.all_eq_true] at ha
    simp only [List.cons_append, isIdentRun, Bool.and_eq_true,
      List.all_eq_true]
    refine ⟨ha.1, ?_⟩
    intro x hx
    rcases List.mem_append.mp hx with hx | hx
    · exact ha.2 x hx
    · exact hb x hx

/-! ## Claim theorems -/

/-- Claim C1 (code_bug evaluation): the `Int` rule's pattern
`(0x)?[0-9]+` admits only decimal digits after `0x`, so the input
`0x2A` does NOT lex as one `Int` token of value 42: it lexes as
`Int` 2 (the slice `0x2` parsed with radix 16) followed by `Name "A"`,
with an adjacency diagnostic — contradicting the claim's required
single `Int(42)`. -/
theorem c1_hex_input_splits :
    lexResults "0x2A".data =
      [.ok (.Int ⟨1, (0, 3), 2⟩), .ok (.Name ⟨1, (3, 4), ['A']⟩)] ∧
    errLog "0x2A".data = [⟨(0, 4), 1, ErrReason.unknownToken⟩] := by
  decide

/-- Claim C2 (code_bug evaluation): the `Skip` variant is an ordinary
enum variant with a regex, not a logos skip directive, so a whitespace
run DOES produce a token: lexing a single space yields the `Skip`
token, contradicting the claim that whitespace produces no token. -/
theorem c2_whitespace_run_yields_token :
    lexResults " ".data = [.ok .Skip] ∧
    okTokens " ".data = [.Skip] := by
  decide

/-- Claim C3 (code_bug evaluation): `try_lexer` returns `lex.count()`
AFTER the `while let` loop has exhausted the lexer, so the aggregate
result is 0 for every input — and the example input in fact produces
14 successful tokens (whitespace `Skip` runs and the `Line` terminator
are emitted as tokens), not 7. -/
theorem c3_try_lexer_returns_zero :
    try_lexer "local x = 10 + 5 -- sum\n".data = 0 ∧
    (okTokens "local x = 10 + 5 -- sum\n".data).length = 14 ∧
    errLog "local x = 10 + 5 -- sum\n".data = [] := by
  decide

/-- Claim C4 counterexample: `Dot` is absent from the match arm of
`is_separate`, so a dot token is NOT classified as a separator, and its
adjacency to a preceding non-separator does trigger an "unknown token"
diagnostic (input `a.`), contradicting the claim that every
punctuation kind including `Dot` is a separator. -/
theorem c4_dot_is_not_separator :
    TokenEnum.is_separate (.Dot ⟨1, (1, 2), ()⟩) = false ∧
    errLog "a.".data = [⟨(0, 2), 1, ErrReason.unknownToken⟩] := by
  decide

/-- Claim C4 (amended): the separator classification of the code equals
the amended table — punctuation and operators except `Dot`, comments,
quoted strings, whitespace and line tokens are separators; identifiers,
numbers, booleans, keywords AND `Dot` are non-separators — and a
separator token never triggers an adjacency diagnostic, nor does any
token that follows a separator. -/
theorem c4_separator_classification :
    (∀ t : TokenEnum, t.is_separate = amendedSeparatorSpec t) ∧
    (∀ (span : Nat × Nat) (t : TokenEnum) (ex : TokenExtras),
      t.is_separate = true → (on_token span t ex).2 = []) ∧
    (∀ (span : Nat × Nat) (t : TokenEnum) (ex : TokenExtras),
      ex.before_token_is_separate = true → (on_token span t ex).2 = []) := by
  refine ⟨fun t => ?_, fun span t ex h => ?_, fun span t ex h => ?_⟩
  · cases t <;> rfl
  · simp [on_token, h]
  · simp [on_token, h]

/-- Witness for C4's amended theorem at concrete inputs. -/
theorem c4_separator_classification_witness :
    (TokenEnum.is_separate (.Comment ⟨1, (0, 2), ['-']⟩) =
      amendedSeparatorSpec (.Comment ⟨1, (0, 2), ['-']⟩)) ∧
    (on_token (0, 2) (.Comment ⟨1, (0, 2), ['-']⟩) default).2 = [] :=
  ⟨c4_separator_classification.1 _,
   c4_separator_classification.2.1 _ _ _ rfl⟩

/-- Claim C5 (confirmed): `123abc` yields the two underlying tokens
`Int(123)` and `Name("abc")`, both kept in the stream, plus exactly one
"unknown token" diagnostic spanning the whole input (from the start of
the previous non-separator, offset 0, through the end of the current
token, offset 6); the space-separated `123 abc` yields the same two
tokens (with a `Skip` token for the space between them) and no
diagnostics. -/
theorem c5_adjacency_errors :
    lexResults "123abc".data =
      [.ok (.Int ⟨1, (0, 3), 123⟩), .ok (.Name ⟨1, (3, 6), ['a', 'b', 'c']⟩)] ∧
    errLog "123abc".data = [⟨(0, 6), 1, ErrReason.unknownToken⟩] ∧
    lexResults "123 abc".data =
      [.ok (.Int ⟨1, (0, 3), 123⟩), .ok .Skip,
       .ok (.Name ⟨1, (4, 7), ['a', 'b', 'c']⟩)] ∧
    errLog "123 abc".data = [] := by
  decide

/-- Claim C8 counterexample: after the terminator `\n` of `a\nb` (span
`[1,2)`), the recorded line start is 1 — the offset of the START of the
terminator, not the offset 2 immediately after it as the claim
states. -/
theorem c8_line_start_not_after_terminator :
    (finalExtras "a\nb".data).line_start = 1 ∧ (1 : Nat) ≠ 2 := by
  decide

/-- Claim C8 (amended): every recognized line terminator records the
byte offset of the START of the terminator match (`lex.span().start`)
as the new line start — shown on the `line` callback itself and on the
concrete scan of `a\nb`. -/
theorem c8_line_start_records_terminator_start :
    (∀ (span : Nat × Nat) (ex : TokenExtras),
      (line span ex).2.line_start = span.1) ∧
    (finalExtras "a\nb".data).line_start = 1 := by
  exact ⟨fun span ex => rfl, by decide⟩

/-- Claim C10 counterexample: the reserved keyword `else` immediately
followed by the identifier characters `if` lexes as the single KEYWORD
token `Elseif` — not as a `Name` token with the whole run as payload,
as the claim requires for every keyword/suffix combination. -/
theorem c10_elseif_is_keyword_not_name :
    lexResults "elseif".data = [.ok (.Elseif ⟨1, (0, 6), ()⟩)] ∧
    ((lexResults "elseif".data).all fun r =>
      match r with
      | .ok (.Name _) => false
      | _ => true) = true := by
  decide

/-- Claim C7 (confirmed): the line counter starts at 1 (the `Default`
state), every recognized line terminator increments it by exactly one
(the `line` callback), and in `a\nb\nc` the token emitted for `c`
carries line number 3. -/
theorem c7_line_counter :
    ((default : TokenExtras).line_breaks = 1) ∧
    (∀ (span : Nat × Nat) (ex : TokenExtras),
      (line span ex).2.line_breaks = ex.line_breaks + 1) ∧
    okTokens "a\nb\nc".data =
      [.Name ⟨1, (0, 1), ['a']⟩, .Line ⟨1, (1, 2), 2⟩,
       .Name ⟨2, (2, 3), ['b']⟩, .Line ⟨2, (3, 4), 3⟩,
       .Name ⟨3, (4, 5), ['c']⟩] := by
  exact ⟨rfl, fun span ex => rfl, by decide⟩

/-- Claim C6 (confirmed), general part: whenever the `Int` rule wins
the match at a position but `u64_lexer` rejects the slice (`None`, e.g.
on `u64` overflow), the step reports one decode diagnostic through the
error path, emits no token (the result is the error value), and the
cursor still advances past the whole offending span; concrete part: the
20-nines input produces the diagnostic and no `Int` token, and the scan
continues to lex the following `1`. -/
theorem c6_decode_failure :
    (∀ (src : List Char) (pos len : Nat) (ex : TokenExtras),
      nextMatch (src.drop pos) = some (.rInt, len) →
      u64_lexer ((src.drop pos).take len) (pos, pos + len) ex.line_breaks = none →
      scanStep src pos ex =
        (.error (), (pos, pos + len), pos + len, ex,
         [⟨(pos, pos + len), ex.line_breaks, ErrReason.decodeFail⟩])) ∧
    lexResults "99999999999999999999 1".data =
      [.error (), .ok .Skip, .ok (.Int ⟨1, (21, 22), 1⟩)] ∧
    errLog "99999999999999999999 1".data =
      [⟨(0, 20), 1, ErrReason.decodeFail⟩] := by
  refine ⟨fun src pos len ex h1 h2 => ?_, by decide, by decide⟩
  simp [scanStep, h1, unitCtor, h2]

/-- Witness for C6's general part at the concrete overflowing input. -/
theorem c6_decode_failure_witness :
    (nextMatch (("99999999999999999999".data).drop 0) = some (.rInt, 20)) ∧
    (u64_lexer (("99999999999999999999".data).drop 0 |>.take 20) (0, 0 + 20)
      (default : TokenExtras).line_breaks = none) ∧
    scanStep "99999999999999999999".data 0 default =
      (.error (), (0, 0 + 20), 0 + 20, default,
       [⟨(0, 0 + 20), (default : TokenExtras).line_breaks, ErrReason.decodeFail⟩]) :=
  ⟨by decide, by decide,
   c6_decode_failure.1 "99999999999999999999".data 0 20 default
     (by decide) (by decide)⟩

/-- Every quoted-string or comment token a single step produces has as
payload the raw slice of its recorded span with the last char dropped
and every backslash removed, and its span is exactly the rule match at
its start offset. -/
theorem scanStep_string_payload (src : List Char) (pos : Nat)
    (ex : TokenExtras) (tok : Token (List Char))
    (h : (scanStep src pos ex).1 = .ok (.QuotedString tok) ∨
         (scanStep src pos ex).1 = .ok (.Comment tok)) :
    tok.v = removeBackslash (sliceAt src tok.span).dropLast ∧
    ∃ r, nextMatch (src.drop tok.span.1) =
      some (r, tok.span.2 - tok.span.1) := by
  rcases hm : nextMatch (src.drop pos) with _ | ⟨r, len⟩
  · rcases h with h | h <;> simp [scanStep, hm] at h
  · cases r
    case rInt =>
      rcases hu : u64_lexer ((src.drop pos).take len) (pos, pos + len)
          ex.line_breaks with _ | t <;>
        rcases h with h | h <;>
        simp [scanStep, hm, unitCtor, hu] at h
    all_goals
      rcases h with h | h <;>
      simp [scanStep, hm, unitCtor, string_lexer] at h <;>
      subst h <;>
      refine ⟨by simp [sliceAt, Nat.add_sub_cancel_left], ?_⟩ <;>
      simp only [Nat.add_sub_cancel_left] <;>
      exact ⟨_, hm⟩

/-- Invariant propagated through the scan loop: every quoted-string or
comment result ever produced satisfies the payload/span law of
`scanStep_string_payload`. -/
theorem runLexerAux_string_payload (src : List Char) :
    ∀ (fuel pos : Nat) (ex : TokenExtras) (res : Except Unit TokenEnum)
      (tok : Token (List Char)),
      res ∈ (runLexerAux src fuel pos ex).1 →
      (res = .ok (.QuotedString tok) ∨ res = .ok (.Comment tok)) →
      tok.v = removeBackslash (sliceAt src tok.span).dropLast ∧
      ∃ r, nextMatch (src.drop tok.span.1) =
        some (r, tok.span.2 - tok.span.1) := by
  intro fuel
  induction fuel with
  | zero =>
    intro pos ex res tok hmem hres
    simp [runLexerAux] at hmem
  | succ n ih =>
    intro pos ex res tok hmem hres
    by_cases hp : pos < src.length
    · simp only [runLexerAux, hp, if_true, List.mem_cons] at hmem
      rcases hmem with rfl | hmem
      · exact scanStep_string_payload src pos ex tok hres
      · exact ih _ _ _ _ hmem hres
    · simp [runLexerAux, hp] at hmem

/-- Claim C9 (confirmed): for every input, every quoted-string and every
comment token the lexer produces has as payload exactly the raw matched
slice (recovered from the recorded span) with its trailing char
stripped and every backslash removed — `string_lexer`'s naive escape
removal — and its recorded span is precisely the byte range of the full
raw rule match at the token's start offset. -/
theorem c9_string_decode (src : List Char) (tok : Token (List Char))
    (h : TokenEnum.QuotedString tok ∈ okTokens src ∨
         TokenEnum.Comment tok ∈ okTokens src) :
    tok.v = removeBackslash (sliceAt src tok.span).dropLast ∧
    ∃ r, nextMatch (src.drop tok.span.1) =
      some (r, tok.span.2 - tok.span.1) := by
  have key : ∀ t : TokenEnum, t ∈ okTokens src →
      Except.ok t ∈ lexResults src := by
    intro t ht
    rcases List.mem_filterMap.mp ht with ⟨res, hmem, hf⟩
    rcases res with u | u
    · simp at hf
    · have hu : u = t := by simp at hf; exact hf
      subst hu
      exact hmem
  rcases h with h | h
  · exact runLexerAux_string_payload src _ _ _ _ tok (key _ h) (Or.inl rfl)
  · exact runLexerAux_string_payload src _ _ _ _ tok (key _ h) (Or.inr rfl)

/-- Witness for C9 at the concrete input from the spec's example,
the single-quoted string containing an escaped quote. -/
theorem c9_string_decode_witness :
    (TokenEnum.QuotedString
        (⟨1, (0, 8), ['\'', 'a', 'b', '\'', 'c', 'd']⟩ : Token (List Char)) ∈
      okTokens ['\'', 'a', 'b', '\\', '\'', 'c', 'd', '\''] ∨
     TokenEnum.Comment
        (⟨1, (0, 8), ['\'', 'a', 'b', '\'', 'c', 'd']⟩ : Token (List Char)) ∈
      okTokens ['\'', 'a', 'b', '\\', '\'', 'c', 'd', '\'']) ∧
    (['\'', 'a', 'b', '\'', 'c', 'd'] =
      removeBackslash
        (sliceAt ['\'', 'a', 'b', '\\', '\'', 'c', 'd', '\''] (0, 8)).dropLast ∧
     ∃ r, nextMatch ['\'', 'a', 'b', '\\', '\'', 'c', 'd', '\''] =
       some (r, 8 - 0)) :=
  ⟨Or.inl (by decide),
   by
    have := c9_string_decode ['\'', 'a', 'b', '\\', '\'', 'c', 'd', '\'']
      ⟨1, (0, 8), ['\'', 'a', 'b', '\'', 'c', 'd']⟩ (Or.inl (by decide))
    simpa using this⟩

/-- Claim C10 (amended): a reserved keyword immediately followed by
additional identifier characters lexes as ONE token covering the whole
run, with no diagnostics of any kind: the longer `Name` match wins over
the exact keyword text and the whole run becomes the `Name` payload —
UNLESS the whole run is itself a reserved keyword (the only such case in
this keyword set is `else` + `if` = `elseif`), in which case the run
lexes as that single keyword token. -/
theorem c10_keyword_identifier_run (kw suffix : List Char)
    (hkw : kw ∈ keywordStrings) (hs : suffix ≠ [])
    (hchars : ∀ c ∈ suffix, isNameCont c = true) :
    errLog (kw ++ suffix) = [] ∧
    (kw ++ suffix ∈ keywordStrings →
      ∃ r mk, (kw ++ suffix, r) ∈ tokenCandidates ∧ unitCtor r = some mk ∧
        lexResults (kw ++ suffix) =
          [.ok (mk (empty (0, (kw ++ suffix).length) 1))]) ∧
    (kw ++ suffix ∉ keywordStrings →
      lexResults (kw ++ suffix) =
        [.ok (.Name ⟨1, (0, (kw ++ suffix).length), kw ++ suffix⟩)]) := by
  have hident : isIdentRun (kw ++ suffix) = true :=
    identRun_append kw suffix (keywordStrings_identRun kw hkw) hchars
  have h0 : 0 < (kw ++ suffix).length := by
    rcases hk : kw ++ suffix with _ | ⟨c, rest⟩
    · rw [hk] at hident
      simp [isIdentRun] at hident
    · simp
  by_cases hmem : kw ++ suffix ∈ keywordStrings
  · obtain ⟨r, hpair, hnm⟩ := (nextMatch_identRun (kw ++ suffix) hident).1
      (keywordStrings_subset_candidates _ hmem)
    have hsome : (unitCtor r).isSome = true :=
      keyword_candidate_unit (kw ++ suffix, r) hpair hmem
    obtain ⟨mk, hmk⟩ := Option.isSome_iff_exists.mp hsome
    have hstep := scanStep_unit (kw ++ suffix) r mk default hnm hmk
    obtain ⟨hres, herr⟩ := runLexer_single_ok (kw ++ suffix) h0 _ hstep
    exact ⟨herr, fun _ => ⟨r, mk, hpair, hmk, hres⟩,
      fun habs => absurd hmem habs⟩
  · have hnc : kw ++ suffix ∉ tokenCandidates.map Prod.fst := by
      intro hin
      rcases candidate_identRun_strings _ hin hident with hk | hk | hk
      · exact hmem hk
      · have hpre : kw.isPrefixOf "true".data = true := by
          rw [← hk]
          exact List.isPrefixOf_iff_prefix.mpr (List.prefix_append kw suffix)
        have := (keyword_not_prefix_of_bool kw hkw).1
        rw [this] at hpre
        exact Bool.false_ne_true hpre
      · have hpre : kw.isPrefixOf "false".data = true := by
          rw [← hk]
          exact List.isPrefixOf_iff_prefix.mpr (List.prefix_append kw suffix)
        have := (keyword_not_prefix_of_bool kw hkw).2
        rw [this] at hpre
        exact Bool.false_ne_true hpre
    have hnm := (nextMatch_identRun (kw ++ suffix) hident).2 hnc
    have hstep := scanStep_name (kw ++ suffix) default hnm
    obtain ⟨hres, herr⟩ := runLexer_single_ok (kw ++ suffix) h0 _ hstep
    exact ⟨herr, fun habs => absurd habs hmem, fun _ => hres⟩

/-- Witness for C10's amended theorem at the concrete run
`break` + `123`. -/
theorem c10_keyword_identifier_run_witness :
    errLog ("break".data ++ "123".data) = [] ∧
    ("break".data ++ "123".data ∈ keywordStrings →
      ∃ r mk, ("break".data ++ "123".data, r) ∈ tokenCandidates ∧
        unitCtor r = some mk ∧
        lexResults ("break".data ++ "123".data) =
          [.ok (mk (empty (0, ("break".data ++ "123".data).length) 1))]) ∧
    ("break".data ++ "123".data ∉ keywordStrings →
      lexResults ("break".data ++ "123".data) =
        [.ok (.Name ⟨1, (0, ("break".data ++ "123".data).length),
          "break".data ++ "123".data⟩)]) :=
  c10_keyword_identifier_run "break".data "123".data (by decide) (by decide)
    (by decide)

end RustLua
